import Mathlib

/-!
Shallow embedding of the montage router core (`core/router.js`): the route
pattern compiler (`compileRegExp`, `compile`), the route table
(`Router` constructor, `parse`, `stringify`) and the destination-guarded
recomputation step of `observePath`.  JS regular expressions are embedded as a
small regex AST (`RE`) whose constructors mirror the string fragments the
source concatenates, matched by a backtracking CPS matcher with the usual
greedy, ordered-alternation semantics.  JS values reachable in parameter
mappings are embedded as `Scalar`/`Value`; host builtins used by the source
(`encodeURIComponent`, `decodeURIComponent`, `parseInt`, number-to-string,
`JSON.stringify`) are modelled explicitly.
-/

/-! ### JS values -/

/-- A primitive JS value reachable in a parameter mapping: a string, an
integer-valued number, or `NaN` (produced by `parseInt` on non-digits). -/
inductive Scalar where
  | str (s : String)
  | num (n : Int)
  | nan
deriving DecidableEq, Repr

/-- A JS value stored under a parameter name: a scalar, an array of scalars
(plural variables), or `null` (which the source treats as absence via
`!= null`).  A wholly missing property is `Option.none` at use sites. -/
inductive Value where
  | scalar (x : Scalar)
  | arr (xs : List Scalar)
  | null
deriving DecidableEq, Repr

/-! ### Decimal digits and number-to-string (models JS `"" + n` on integers) -/

/-- The decimal digit character for `d % 10`. -/
def natDigit (d : Nat) : Char :=
  match d % 10 with
  | 0 => '0' | 1 => '1' | 2 => '2' | 3 => '3' | 4 => '4'
  | 5 => '5' | 6 => '6' | 7 => '7' | 8 => '8' | _ => '9'

/-- Digit-extraction loop for `natDigitsRev`, structurally recursive on a
fuel argument (initialized to the number itself, which bounds the digit
count for positive numbers). -/
def natDigitsRevFuel : Nat → Nat → List Char
  | 0, _ => []
  | _ + 1, 0 => []
  | fuel + 1, n + 1 => natDigit ((n + 1) % 10) :: natDigitsRevFuel fuel ((n + 1) / 10)

/-- Decimal digits of `n`, least significant first (empty for `0`). -/
def natDigitsRev (n : Nat) : List Char := natDigitsRevFuel n n

/-- Decimal representation of a natural number, as a character list. -/
def natReprL (n : Nat) : List Char :=
  if n = 0 then ['0'] else (natDigitsRev n).reverse

/-- Decimal rendering of a natural number.  This models JS number-to-string
only on the range where a JS number holds the integer exactly and renders it
as exact decimal digits, i.e. below `2 ^ 53`: doubles round above `2 ^ 53`
(`String(2 ** 64)` is the rounded `"18446744073709552000"`) and switch to
exponential notation from `1e21` on (`"" + 1e21` is `"1e+21"`).  Theorems
that rely on this rendering quantify only over that range. -/
def natRepr (n : Nat) : String := ⟨natReprL n⟩

/-- Decimal rendering of an integer (models JS `"" + n`), with the same
below-`2 ^ 53` faithfulness range as `natRepr`. -/
def intRepr (n : Int) : String :=
  if n < 0 then "-" ++ natRepr n.natAbs else natRepr n.toNat

/-! ### `parseInt(s, 10)` -/

/-- JS `StrWhiteSpace` characters skipped by `parseInt` (common subset). -/
def jsWhitespace (c : Char) : Bool :=
  c == ' ' || c == '\t' || c == '\n' || c == '\r' ||
  c.toNat == 11 || c.toNat == 12 || c.toNat == 0xA0 || c.toNat == 0xFEFF

/-- Accumulate the value of a run of decimal digit characters. -/
def digitsVal (ds : List Char) : Nat :=
  ds.foldl (fun a c => a * 10 + (c.toNat - 48)) 0

/-- Modelled host builtin `parseInt(s, 10)`: skip whitespace, read an optional
sign, then the longest prefix of decimal digits; `NaN` when there is none.
The exact integer result matches the host only while it fits a double
exactly, i.e. for digit runs below `2 ^ 53` (beyond that the host rounds);
theorems that rely on an exact result stay within that range. -/
def parseIntL (s : List Char) : Scalar :=
  let s1 := s.dropWhile jsWhitespace
  let signed : Bool × List Char :=
    match s1 with
    | '-' :: r => (true, r)
    | '+' :: r => (false, r)
    | _ => (false, s1)
  let ds := signed.2.takeWhile Char.isDigit
  if ds.isEmpty then .nan
  else .num ((if signed.1 then -1 else 1) * (digitsVal ds : Int))

/-! ### Percent-coding (models `encodeURIComponent` / `decodeURIComponent`) -/

/-- Characters `encodeURIComponent` leaves unescaped. -/
def uriUnreservedChar (c : Char) : Bool :=
  c.isAlphanum || c == '-' || c == '_' || c == '.' || c == '!' ||
  c == '~' || c == '*' || c.toNat == 39 || c == '(' || c == ')'

/-- Uppercase hexadecimal digit for `n < 16`. -/
def hexDigitCh (n : Nat) : Char :=
  if n < 10 then natDigit n
  else if n = 10 then 'A' else if n = 11 then 'B' else if n = 12 then 'C'
  else if n = 13 then 'D' else if n = 14 then 'E' else 'F'

/-- UTF-8 bytes of a character's code point. -/
def utf8Bytes (c : Char) : List Nat :=
  let n := c.toNat
  if n < 0x80 then [n]
  else if n < 0x800 then [0xC0 + n / 64, 0x80 + n % 64]
  else if n < 0x10000 then [0xE0 + n / 4096, 0x80 + n / 64 % 64, 0x80 + n % 64]
  else [0xF0 + n / 262144, 0x80 + n / 4096 % 64, 0x80 + n / 64 % 64, 0x80 + n % 64]

/-- Modelled host builtin `encodeURIComponent`, on character lists. -/
def encodeURIComponentL (s : List Char) : List Char :=
  (s.map (fun c =>
    if uriUnreservedChar c then [c]
    else ((utf8Bytes c).map (fun b => ['%', hexDigitCh (b / 16), hexDigitCh (b % 16)])).flatten)).flatten

/-- Modelled host builtin `encodeURIComponent`. -/
def encodeURIComponent (s : String) : String := ⟨encodeURIComponentL s.toList⟩

/-- Value of a hexadecimal digit character. -/
def hexValCh (c : Char) : Option Nat :=
  if '0' ≤ c && c ≤ '9' then some (c.toNat - 48)
  else if 'A' ≤ c && c ≤ 'F' then some (c.toNat - 55)
  else if 'a' ≤ c && c ≤ 'f' then some (c.toNat - 87)
  else none

/-- Whether `n` is a Unicode scalar value. -/
def validCp (n : Nat) : Bool := n < 0xD800 || (0xE000 ≤ n && n < 0x110000)

/-- Read one `%XX` escape. -/
def pctByte : List Char → Option (Nat × List Char)
  | '%' :: h :: l :: rest =>
    match hexValCh h, hexValCh l with
    | some hi, some lo => some (hi * 16 + lo, rest)
    | _, _ => none
  | _ => none

/-- Read one `%XX` escape that must be a UTF-8 continuation byte. -/
def contByte (s : List Char) : Option (Nat × List Char) :=
  match pctByte s with
  | some (b, r) => if 0x80 ≤ b && b < 0xC0 then some (b % 64, r) else none
  | none => none

/-- Decoding loop of `decodeURIComponent`: literal characters pass through,
`%XX` escape sequences are decoded as UTF-8.  `none` models a `URIError`. -/
def decodeLoop : Nat → List Char → Option (List Char)
  | 0, _ => some []
  | _ + 1, [] => some []
  | fuel + 1, '%' :: rest0 =>
    match pctByte ('%' :: rest0) with
    | none => none
    | some (b, r1) =>
      if b < 0x80 then (decodeLoop fuel r1).map (fun t => Char.ofNat b :: t)
      else if b < 0xC0 then none
      else if b < 0xE0 then
        match contByte r1 with
        | some (x1, r2) =>
          let cp := (b - 0xC0) * 64 + x1
          if 0x80 ≤ cp && validCp cp then (decodeLoop fuel r2).map (fun t => Char.ofNat cp :: t)
          else none
        | none => none
      else if b < 0xF0 then
        match contByte r1 with
        | some (x1, r2) =>
          match contByte r2 with
          | some (x2, r3) =>
            let cp := (b - 0xE0) * 4096 + x1 * 64 + x2
            if 0x800 ≤ cp && validCp cp then (decodeLoop fuel r3).map (fun t => Char.ofNat cp :: t)
            else none
          | none => none
        | none => none
      else if b < 0xF8 then
        match contByte r1 with
        | some (x1, r2) =>
          match contByte r2 with
          | some (x2, r3) =>
            match contByte r3 with
            | some (x3, r4) =>
              let cp := (b - 0xF0) * 262144 + x1 * 4096 + x2 * 64 + x3
              if 0x10000 ≤ cp && validCp cp then (decodeLoop fuel r4).map (fun t => Char.ofNat cp :: t)
              else none
            | none => none
          | none => none
        | none => none
      else none
  | fuel + 1, c :: rest => (decodeLoop fuel rest).map (fun t => c :: t)

/-- Modelled host builtin `decodeURIComponent` on character lists.  The host
throws `URIError` on malformed escapes; this model is total and returns the
input unchanged in that case (no claim exercises malformed escapes). -/
def decodeURIComponentL (s : List Char) : List Char :=
  (decodeLoop (s.length + 1) s).getD s

/-! ### JS string coercion and `JSON.stringify` on strings -/

/-- String coercion of a scalar (models JS `"" + x`). -/
def scalarToString : Scalar → String
  | .str s => s
  | .num n => intRepr n
  | .nan => "NaN"

/-- String coercion of a value (arrays join with `,` as in JS). -/
def jsToString : Value → String
  | .scalar x => scalarToString x
  | .arr xs => String.intercalate "," (xs.map scalarToString)
  | .null => "null"

/-- Escapes of `JSON.stringify` relevant to plain destination strings. -/
def jsonEscapeChar (c : Char) : List Char :=
  if c == '"' then ['\\', '"']
  else if c == '\\' then ['\\', '\\']
  else if c == '\n' then ['\\', 'n']
  else if c == '\r' then ['\\', 'r']
  else if c == '\t' then ['\\', 't']
  else [c]

/-- Modelled host builtin `JSON.stringify` on a string. -/
def jsonStringify (s : String) : String :=
  "\"" ++ String.mk (s.toList.map jsonEscapeChar).flatten ++ "\""

/-! ### Regular expressions

The constructors mirror the fragments `compileRegExp` concatenates into its
regexp source string; `mtch` implements the backtracking semantics of JS
regexps (greedy quantifiers, ordered alternation, numbered capture groups).
-/

/-- Regex AST for the fragments emitted by `compileRegExp`. -/
inductive RE where
  | eps
  | ch (p : Char → Bool)
  | cat (a b : RE)
  | alt (a b : RE)
  | star (a : RE)
  | opt (a : RE)
  | grp (i : Nat) (a : RE)

/-- Capture list: group index paired with the captured characters.  A group
absent from the list did not participate in the match (JS `undefined`). -/
def Caps : Type := List (Nat × List Char)

/-- Greedy Kleene star in continuation-passing style: prefer iterating `step`
(which must consume input, as JS terminates empty-width repetitions) and fall
back to the continuation.  `fuel` only bounds the recursion; it never runs out
when initialized to `input length + 1`. -/
def mtchStar (step : List Char → Caps → (List Char → Caps → Option Caps) → Option Caps) :
    Nat → List Char → Caps → (List Char → Caps → Option Caps) → Option Caps
  | 0, s, caps, k => k s caps
  | fuel + 1, s, caps, k =>
    match step s caps (fun s1 caps1 =>
        if s1.length < s.length then mtchStar step fuel s1 caps1 k else none) with
    | some r => some r
    | none => k s caps

/-- Backtracking matcher with JS regexp semantics. -/
def mtch : RE → List Char → Caps → (List Char → Caps → Option Caps) → Option Caps
  | .eps, s, caps, k => k s caps
  | .ch p, s, caps, k =>
    match s with
    | [] => none
    | c :: rest => if p c then k rest caps else none
  | .cat a b, s, caps, k => mtch a s caps (fun s1 caps1 => mtch b s1 caps1 k)
  | .alt a b, s, caps, k =>
    match mtch a s caps k with
    | some r => some r
    | none => mtch b s caps k
  | .opt a, s, caps, k =>
    match mtch a s caps k with
    | some r => some r
    | none => k s caps
  | .star a, s, caps, k => mtchStar (mtch a) (s.length + 1) s caps k
  | .grp i a, s, caps, k =>
    mtch a s caps (fun s1 caps1 => k s1 ((i, s.take (s.length - s1.length)) :: caps1))

/-- Run an anchored match (`compileRegExp` wraps its source in `^...$`). -/
def reExec (re : RE) (s : List Char) : Option Caps :=
  mtch re s [] (fun s1 caps => if s1.isEmpty then some caps else none)

/-! ### Pattern tokenizer

Models the global-replace pass of `compileRegExp` over the token regexp
`(/?)(?: :([:*+&]) | (:|\*|\+|\.\.\.)(\w*)([?&]|) | ([special]) | ([^/:*+.&]+) )`:
at each position the next token is matched (an optional leading slash, then
the first alternative that applies); a character no token matches is passed
through to the regexp verbatim and contributes no term.
-/

/-- A variable term of a route pattern (the objects pushed on `variables` and
`terms` by `compileRegExp`).  The source names the first field `prefix`, a
reserved word here. -/
structure RVar where
  pfx : String
  name : String
  numeric : Bool
  optional : Bool
  plural : Bool
  slash : Bool
deriving DecidableEq, Repr

/-- One entry of a compiled route's `terms` list: a literal, a variable (the
source's `type: "variable"`), or the extra `type: "path"` marker pushed after
a `...` variable. -/
inductive Term where
  | literal (value : String)
  | vr (v : RVar)
  | path
deriving DecidableEq, Repr

/-- A token recognized by the token regexp, with its captured leading slash. -/
inductive Tok where
  | esc (slash : Bool) (c : Char)
  | vr (slash : Bool) (pfx : String) (name : String) (suffix : String)
  | special (slash : Bool) (c : Char)
  | lit (slash : Bool) (text : List Char)
  | unmatched (c : Char)
deriving DecidableEq, Repr

/-- A token before the leading slash is attached. -/
inductive PreTok where
  | esc (c : Char)
  | vr (pfx : String) (name : String) (suffix : String)
  | special (c : Char)
  | lit (text : List Char)
deriving DecidableEq, Repr

/-- JS `\w`: letters, digits, underscore. -/
def isWordChar (c : Char) : Bool := c.isAlphanum || c == '_'

/-- The `special` character class `[-[\]{}()*+.\^$|,#\s]` of the token regexp
(braces written by code point). -/
def specialCh (c : Char) : Bool :=
  c == '-' || c == '[' || c == ']' || c.toNat == 123 || c.toNat == 125 ||
  c == '(' || c == ')' || c == '*' || c == '+' || c == '.' || c == '^' ||
  c == '$' || c == '|' || c == ',' || c == '#' ||
  c == ' ' || c == '\t' || c == '\n' || c == '\r' || c.toNat == 11 || c.toNat == 12

/-- The `literal` character class `[^/:*+.&]` of the token regexp. -/
def litCh (c : Char) : Bool :=
  !(c == '/' || c == ':' || c == '*' || c == '+' || c == '.' || c == '&')

/-- The variable-kind alternative `:|\*|\+|\.\.\.` of the token regexp. -/
def scanVarKind : List Char → Option (String × List Char)
  | ':' :: r => some (":", r)
  | '*' :: r => some ("*", r)
  | '+' :: r => some ("+", r)
  | '.' :: '.' :: '.' :: r => some ("...", r)
  | _ => none

/-- The escape alternative `:([:*+&])`. -/
def scanEsc : List Char → Option (PreTok × List Char)
  | ':' :: c :: r =>
    if c == ':' || c == '*' || c == '+' || c == '&' then some (.esc c, r) else none
  | _ => none

/-- The variable alternative: kind, then greedy `\w*` name, then `[?&]|`. -/
def scanVar (s : List Char) : Option (PreTok × List Char) :=
  match scanVarKind s with
  | none => none
  | some (pfx, r1) =>
    let name := r1.takeWhile isWordChar
    let r2 := r1.dropWhile isWordChar
    match r2 with
    | '?' :: r3 => some (.vr pfx ⟨name⟩ "?", r3)
    | '&' :: r3 => some (.vr pfx ⟨name⟩ "&", r3)
    | _ => some (.vr pfx ⟨name⟩ "", r2)

/-- The regex-special-literal alternative. -/
def scanSpecial : List Char → Option (PreTok × List Char)
  | c :: r => if specialCh c then some (.special c, r) else none
  | _ => none

/-- The greedy plain-literal-run alternative `[^/:*+.&]+`. -/
def scanLit (s : List Char) : Option (PreTok × List Char) :=
  let t := s.takeWhile litCh
  if t.isEmpty then none else some (.lit t, s.dropWhile litCh)

/-- The ordered alternation of the token regexp's four alternatives. -/
def scanAlt (s : List Char) : Option (PreTok × List Char) :=
  match scanEsc s with
  | some r => some r
  | none =>
    match scanVar s with
    | some r => some r
    | none =>
      match scanSpecial s with
      | some r => some r
      | none => scanLit s

/-- Attach the captured `(/?)` leading slash to a token. -/
def applySlash (slash : Bool) : PreTok → Tok
  | .esc c => .esc slash c
  | .vr pfx name suffix => .vr slash pfx name suffix
  | .special c => .special slash c
  | .lit t => .lit slash t

/-- Match one token at the current position: the optional leading slash, then
an alternative.  No alternative matches a bare `/`, so when the slash was
consumed and no alternative follows, backtracking to an empty slash also
fails and the position is unmatched. -/
def scanTok : List Char → Option (Tok × List Char)
  | '/' :: r =>
    match scanAlt r with
    | some (t, rest) => some (applySlash true t, rest)
    | none => none
  | s =>
    match scanAlt s with
    | some (t, rest) => some (applySlash false t, rest)
    | none => none

/-- The scan of `String.prototype.replace` with a global regexp: emit the
token matched at each position, pass unmatched characters through.  `fuel`
(initialized to `length + 1`) only bounds the recursion; every step consumes
at least one character. -/
def tokenize : Nat → List Char → List Tok
  | 0, _ => []
  | _ + 1, [] => []
  | fuel + 1, c :: rest =>
    match scanTok (c :: rest) with
    | some (t, r) => t :: tokenize fuel r
    | none => .unmatched c :: tokenize fuel rest

/-! ### Regexp fragment construction (`compileRegExp`'s replacement callback) -/

/-- A single literal character of the generated regexp; the `i` flag compares
case-insensitively (ASCII simple folding). -/
def litChRE (ins : Bool) (c : Char) : RE :=
  .ch (fun d => if ins then d.toLower == c.toLower else d == c)

/-- A run of literal characters. -/
def litSeqRE (ins : Bool) (cs : List Char) : RE :=
  cs.foldr (fun c r => .cat (litChRE ins c) r) .eps

/-- JS `.`: any character except a line terminator. -/
def dotRE : RE :=
  .ch (fun c => !(c.toNat == 10 || c.toNat == 13 || c.toNat == 0x2028 || c.toNat == 0x2029))

/-- JS `\d+`. -/
def plusDigitRE : RE := .cat (.ch Char.isDigit) (.star (.ch Char.isDigit))

/-- JS `[^&]*`. -/
def starNotAmpRE : RE := .star (.ch (fun c => !(c == '&')))

/-- JS `[^/&]*`. -/
def starNotSlashAmpRE : RE := .star (.ch (fun c => !(c == '/' || c == '&')))

/-- JS `[^/]*`. -/
def starNotSlashRE : RE := .star (.ch (fun c => !(c == '/')))

/-- The `(slash || "")` prefix of a variable fragment. -/
def slashRE (ins : Bool) (slash : Bool) : RE := if slash then litChRE ins '/' else .eps

/-- Accumulator of `compileRegExp`: the regexp built so far, the `variables`
and `terms` arrays, and the positional-name counter `i`. -/
structure CompAcc where
  re : RE
  vars : List RVar
  terms : List Term
  i : Nat

/-- The element pattern of a plural variable: `\d+`, `[^&]*` or `[^/&]*`. -/
def pluralTermRE (pfx : String) : RE :=
  if pfx == "+" then plusDigitRE
  else if pfx == "*" then starNotAmpRE
  else starNotSlashAmpRE

/-- The capture of a singular variable: `(\d+)`, `(.*)` or `([^/]*)`. -/
def singularCapRE (pfx : String) : RE :=
  if pfx == "+" then plusDigitRE
  else if pfx == "*" then .star dotRE
  else starNotSlashRE

/-- One step of `compileRegExp`'s replacement callback: append the fragment
for a token to the regexp and record its term (and variable, with the
positional-name fallback `name || i++`). -/
def compileTok (ins : Bool) (acc : CompAcc) (tok : Tok) : CompAcc :=
  match tok with
  | .vr slash pfx name suffix =>
    let nm := if name.isEmpty then natRepr acc.i else name
    let i1 := if name.isEmpty then acc.i + 1 else acc.i
    let g := acc.vars.length
    let v : RVar :=
      { pfx := pfx, name := nm, numeric := pfx == "+",
        optional := suffix == "?", plural := suffix == "&", slash := slash }
    if pfx == "..." then
      { re := .cat acc.re (.grp g (.cat (if slash then .opt (litChRE ins '/') else .eps) (.star dotRE))),
        vars := acc.vars ++ [v],
        terms := acc.terms ++ [.vr v, .path],
        i := i1 }
    else if suffix == "&" then
      let t := pluralTermRE pfx
      { re := .cat acc.re (.opt (.cat (slashRE ins slash)
          (.grp g (.alt (.cat t (.star (.cat (litChRE ins '&') t))) .eps)))),
        vars := acc.vars ++ [v],
        terms := acc.terms ++ [.vr v],
        i := i1 }
    else
      let core := .cat (slashRE ins slash) (.grp g (singularCapRE pfx))
      { re := .cat acc.re (if suffix == "?" then .opt core else core),
        vars := acc.vars ++ [v],
        terms := acc.terms ++ [.vr v],
        i := i1 }
  | .esc slash c =>
    { acc with
      re := .cat acc.re (.cat (slashRE ins slash) (litChRE ins c)),
      terms := acc.terms ++ [.literal ((if slash then "/" else "") ++ ⟨[c]⟩)] }
  | .special slash c =>
    { acc with
      re := .cat acc.re (.cat (slashRE ins slash) (litChRE ins c)),
      terms := acc.terms ++ [.literal ((if slash then "/" else "") ++ ⟨[c]⟩)] }
  | .lit slash text =>
    { acc with
      re := .cat acc.re (.cat (slashRE ins slash) (litSeqRE ins text)),
      terms := acc.terms ++ [.literal ((if slash then "/" else "") ++ ⟨text⟩)] }
  | .unmatched c =>
    { acc with re := .cat acc.re (litChRE ins c) }

/-- Models `compileRegExp(pattern, variables, terms, insensitive)`: tokenize the
pattern and fold the replacement callback; the result regexp is anchored by
`reExec`, and the `i` flag is applied iff `insensitive` is truthy. -/
def compileRegExp (pattern : String) (insensitive : Bool) : CompAcc :=
  (tokenize (pattern.toList.length + 1) pattern.toList).foldl (compileTok insensitive)
    { re := .eps, vars := [], terms := [], i := 0 }

/-! ### Compiled routes and matching -/

/-- A compiled route: the closure environment of the object `compile`
returns, plus its destination. -/
structure Route where
  destination : String
  vars : List RVar
  terms : List Term
  re : RE

/-- Models `compile(pattern, destination, insensitive)`.  NOTE (faithful to the
source): the body invokes `compileRegExp(pattern, variables, terms)` without
forwarding `insensitive`, so the `i` flag is never set and matching is always
case-sensitive regardless of the argument. -/
def compile (pattern destination : String) (insensitive : Bool) : Route :=
  let c := compileRegExp pattern false
  let _ := insensitive
  { destination := destination, vars := c.vars, terms := c.terms, re := c.re }

/-- The object `match` returns on success.  The source stores the remainder
under the key `path` (`path: remainingPath`), not `remainingPath`. -/
structure ParseResult where
  destination : String
  parameters : List (String × Value)
  path : Option String
deriving DecidableEq, Repr

/-- JS object property assignment `obj[k] = v` on an insertion-ordered
mapping: overwrite in place, or append a new key. -/
def objSet (ps : List (String × α)) (k : String) (v : α) : List (String × α) :=
  if ps.any (fun p => p.1 == k) then ps.map (fun p => if p.1 == k then (k, v) else p)
  else ps ++ [(k, v)]

/-- The per-variable loop of `match`: read capture `i + 1` (absent or empty
gives `""`), then split/decode plural values, integer-coerce numeric ones,
and route `...` captures to `remainingPath`. -/
def buildLoop : List RVar → Nat → Caps → List (String × Value) → Option String →
    List (String × Value) × Option String
  | [], _, _, ps, rp => (ps, rp)
  | v :: vs, idx, caps, ps, rp =>
    let value : List Char := (caps.lookup idx).getD []
    if v.plural then
      let vals : List Scalar :=
        if value.isEmpty then []
        else
          let pieces := (value.splitOn '&').map decodeURIComponentL
          if v.numeric then pieces.map parseIntL
          else pieces.map (fun e => .str ⟨e⟩)
      buildLoop vs (idx + 1) caps (objSet ps v.name (.arr vals)) rp
    else
      if v.pfx == "..." then
        buildLoop vs (idx + 1) caps ps (some ⟨value⟩)
      else
        let w : Value := if v.numeric then .scalar (parseIntL value) else .scalar (.str ⟨value⟩)
        buildLoop vs (idx + 1) caps (objSet ps v.name w) rp

/-- The `match` closure of a compiled route. -/
def matchRoute (r : Route) (path : String) : Option ParseResult :=
  match reExec r.re path.toList with
  | none => none
  | some caps =>
    let built := buildLoop r.vars 0 caps [] none
    some { destination := r.destination, parameters := built.1, path := built.2 }

/-! ### The route table (`Router` constructor, `parse`, `stringify`) -/

/-- The state a `Router` builds in its constructor: `table` (parse order),
`backTable` (destination → routes, registration order) and
`termsForDestination` (destination → variable name → term). -/
structure Router where
  table : List Route
  backTable : List (String × List Route)
  termsForDestination : List (String × List (String × RVar))

/-- Read-modify-write of one key of an insertion-ordered JS object. -/
def objUpd (l : List (String × α)) (k : String) (f : Option α → α) : List (String × α) :=
  match l.lookup k with
  | some v => l.map (fun p => if p.1 == k then (k, f (some v)) else p)
  | none => l ++ [(k, f none)]

/-- One iteration of the constructor loop: compile `prefix + pattern`, push
the route on `table` and `backTable[destination]`, and index every variable
by name in `termsForDestination[destination]`. -/
def routerStep (pfx : String) (ins : Bool) (acc : Router) (e : String × String) : Router :=
  let route := compile (pfx ++ e.1) e.2 ins
  { table := acc.table ++ [route],
    backTable := objUpd acc.backTable e.2 (fun old => old.getD [] ++ [route]),
    termsForDestination := objUpd acc.termsForDestination e.2
      (fun old => route.vars.foldl (fun t v => objSet t v.name v) (old.getD [])) }

/-- Models `new Router(prefix, routes, insensitive)` over an insertion-ordered route
table. -/
def mkRouter (pfx : String) (routes : List (String × String)) (ins : Bool) : Router :=
  routes.foldl (routerStep pfx ins) { table := [], backTable := [], termsForDestination := [] }

/-- The loop of `Router.parse`: first matching route wins; falling off the
end returns `undefined`. -/
def parseLoop : List Route → String → Option ParseResult
  | [], _ => none
  | r :: rs, path =>
    match matchRoute r path with
    | some m => some m
    | none => parseLoop rs path

/-- Models `Router.parse(path)`. -/
def Router.parse (r : Router) (path : String) : Option ParseResult :=
  parseLoop r.table path

/-! ### `Router.stringify` and the `observePath` recomputation step -/

/-- The `state` object read by `stringify` and `observePath`: these read the
`remainingPath` property (a `ParseResult` has no such key — its remainder is
under `path`). -/
structure NavState where
  destination : String
  parameters : Option (List (String × Value))
  remainingPath : Option String
deriving DecidableEq, Repr

/-- The check `state.parameters != null && state.parameters[term.name] != null`:
the present, non-null value of a parameter. -/
def presentParam (s : NavState) (name : String) : Option Value :=
  match s.parameters with
  | none => none
  | some ps =>
    match ps.lookup name with
    | none => none
    | some .null => none
    | some v => some v

/-- One term of the `stringify` generation loop.  A plural present value is
`map(encodeURIComponent).join("&")`; calling `.map` on a present non-array
value is a host `TypeError`, modelled as an error result. -/
def renderTerm (s : NavState) : Term → Except String (List String)
  | .literal v => .ok [v]
  | .vr v =>
    match presentParam s v.name with
    | some w =>
      let pre := if v.slash then ["/"] else []
      if v.plural then
        match w with
        | .arr xs =>
          .ok (pre ++ [String.intercalate "&" (xs.map (fun x => encodeURIComponent (scalarToString x)))])
        | _ => .error "TypeError: .map is not a function"
      else .ok (pre ++ [jsToString w])
    | none => if v.plural && v.slash then .ok ["/"] else .ok []
  | .path =>
    match presentParam s "undefined" with
    | some w => .ok [jsToString w]
    | none => .ok []

/-- Left-to-right traversal of the term loop: the first thrown error
propagates, otherwise the emitted part lists are collected in order. -/
def mapExcept (f : α → Except ε β) : List α → Except ε (List β)
  | [] => .ok []
  | a :: as =>
    match f a with
    | .error e => .error e
    | .ok b =>
      match mapExcept f as with
      | .error e => .error e
      | .ok bs => .ok (b :: bs)

/-- The generation loop body of `stringify` for one route:
`parts.join("") + (state.remainingPath || "")`. -/
def renderRoute (r : Route) (s : NavState) : Except String String :=
  match mapExcept (renderTerm s) r.terms with
  | .error e => .error e
  | .ok parts => .ok (String.join parts.flatten ++ s.remainingPath.getD "")

/-- Models `Router.stringify(state)`: throw on an unregistered destination;
otherwise scan `backTable[destination]` from the end — the loop body returns
unconditionally at the end of its first iteration, so only the most recently
registered route is ever used (`.ok none` models the `undefined` return of an
empty route list, unreachable for constructed routers). -/
def Router.stringify (r : Router) (s : NavState) : Except String (Option String) :=
  match r.backTable.lookup s.destination with
  | none => .error ("No routes for the destination: " ++ jsonStringify s.destination)
  | some rs =>
    match rs.getLast? with
    | none => .ok none
    | some route => (renderRoute route s).map some

/-- The destination-guarded recomputation step of `observePath` (lines
127-146 of the source): when `termsForDestination[destination]` is absent,
`emit()` is called with no argument (an absent path); otherwise the emitted
value is `stringify(state)`, and an exception there would propagate. -/
def Router.observeEmit (r : Router) (s : NavState) : Except String (Option String) :=
  match r.termsForDestination.lookup s.destination with
  | none => .ok none
  | some _ => r.stringify s

/-- Reading the parsed state back as a `stringify` input: a `ParseResult` has
no `remainingPath` property (its remainder is under `path`), so that read
yields `undefined`. -/
def navStateOfResult (res : ParseResult) : NavState :=
  { destination := res.destination, parameters := some res.parameters, remainingPath := none }

/-- Whether a term is safe for the generation loop: a plural term with a
present parameter value must hold an array. -/
def pluralTermOk (s : NavState) (t : Term) : Bool :=
  match t with
  | .vr v =>
    if v.plural then
      match presentParam s v.name with
      | some (.arr _) => true
      | some _ => false
      | none => true
    else true
  | _ => true

/-- Whether every plural term of a route with a present parameter value holds
an array (the condition under which `stringify`'s generation loop cannot
raise a `TypeError`). -/
def pluralWellTyped (route : Route) (s : NavState) : Bool :=
  route.terms.all (pluralTermOk s)

/-! ### Concrete route tables used by the claims -/

/-- Single plural-integer route, `new Router("/", builtin("photos/+photoIds&" -> "photos"))`. -/
def photosRouter : Router := mkRouter "/" [("photos/+photoIds&", "photos")] false

/-- Single optional-string route `notes/:noteId?`. -/
def notesRouter : Router := mkRouter "/" [("notes/:noteId?", "notes")] false

/-- A plural string route and a singular string route. -/
def ampRouter : Router := mkRouter "/" [("t/:xs&", "t"), ("s/:x", "s")] false

/-- A remainder route `a/...`. -/
def restRouter : Router := mkRouter "/" [("a/...", "rest")] false

/-- A literal route registered with `insensitive = true`. -/
def upperRouter : Router := mkRouter "/" [("notes", "notes")] true

/-- An optional string variable and an optional integer variable. -/
def optRouter : Router := mkRouter "/" [("notes/:noteId?", "notes"), ("n/+id?", "num")] false

/-- Two string variables separated by a literal dot. -/
def dotRouter : Router := mkRouter "/" [(":x.:y", "xy")] false

/-- Two integer variables separated by non-digit literals. -/
def pcRouter : Router := mkRouter "/" [("photo/+photoId/comments/+commentId", "photo-comment")] false

/-- Two routes registered for the same destination. -/
def thingRouter : Router := mkRouter "/" [("old/:id", "thing"), ("new/:id", "thing")] false

/-- A variable route shadowing a literal route. -/
def overlapRouter : Router := mkRouter "/" [(":x", "any"), ("b", "b")] false

/-! ### C5 -/

/-- C5: with the route `photos/+photoIds&` → `photos` under prefix `/`, parse
of `/photos` and `/photos/` binds `photoIds` to the empty array (a plural
integer variable matches zero occurrences, with or without the slash), and
parse of `/photos/10&20&30` binds `[10, 20, 30]` with destination `photos`. -/
theorem c5_plural_cardinality :
    photosRouter.parse "/photos" =
      some { destination := "photos", parameters := [("photoIds", .arr [])], path := none } ∧
    photosRouter.parse "/photos/" =
      some { destination := "photos", parameters := [("photoIds", .arr [])], path := none } ∧
    photosRouter.parse "/photos/10&20&30" =
      some { destination := "photos",
             parameters := [("photoIds", .arr [.num 10, .num 20, .num 30])], path := none } := by
  refine ⟨rfl, rfl, rfl⟩

/-! ### C6 -/

/-- C6: `stringify` emits a variable iff its value is present (not
null/undefined), not truthy: an absent `noteId` elides the value and its
optional slash (`/notes`), while the falsy-but-present values `0` and `""`
are emitted after the slash (`/notes/0`, `/notes/`); an explicit `null` is
treated as absent. -/
theorem c6_presence_not_truthiness :
    notesRouter.stringify
      { destination := "notes", parameters := some [], remainingPath := none } =
      .ok (some "/notes") ∧
    notesRouter.stringify
      { destination := "notes", parameters := some [("noteId", .scalar (.num 0))],
        remainingPath := none } = .ok (some "/notes/0") ∧
    notesRouter.stringify
      { destination := "notes", parameters := some [("noteId", .scalar (.str ""))],
        remainingPath := none } = .ok (some "/notes/") ∧
    notesRouter.stringify
      { destination := "notes", parameters := some [("noteId", .null)],
        remainingPath := none } = .ok (some "/notes") := by
  refine ⟨rfl, rfl, rfl, rfl⟩

/-! ### C7 -/

/-- C7: the encode/decode asymmetry.  On parse a plural capture is split on
`&` and each element percent-decoded (`/t/a%26b&c` parses to
`xs = ["a&b", "c"]`) while a singular capture is stored raw
(`/s/a%26b` parses to `x = "a%26b"`); on stringify plural elements are
percent-encoded and `&`-joined (back to `/t/a%26b&c`) while a singular value
is emitted raw (`x = "a&b"` yields `/s/a&b`). -/
theorem c7_encode_decode_asymmetry :
    ampRouter.parse "/t/a%26b&c" =
      some { destination := "t", parameters := [("xs", .arr [.str "a&b", .str "c"])],
             path := none } ∧
    ampRouter.stringify
      { destination := "t", parameters := some [("xs", .arr [.str "a&b", .str "c"])],
        remainingPath := none } = .ok (some "/t/a%26b&c") ∧
    ampRouter.parse "/s/a%26b" =
      some { destination := "s", parameters := [("x", .scalar (.str "a%26b"))], path := none } ∧
    ampRouter.stringify
      { destination := "s", parameters := some [("x", .scalar (.str "a&b"))],
        remainingPath := none } = .ok (some "/s/a&b") := by
  refine ⟨rfl, rfl, rfl, rfl⟩

/-! ### C8 -/

/-- C8 (evaluation at the failing input): for the remainder route `a/...`,
parse of `/a/b/c` captures the tail `/b/c` raw and outside `parameters`, but
stores it under the result key `path` — while `stringify` reads
`state.remainingPath`, so stringifying the parsed state drops the tail and
yields `/a`. -/
theorem c8_remainder_path_field :
    restRouter.parse "/a/b/c" =
      some { destination := "rest", parameters := [], path := some "/b/c" } ∧
    restRouter.stringify
      (navStateOfResult { destination := "rest", parameters := [], path := some "/b/c" }) =
      .ok (some "/a") := by
  refine ⟨rfl, rfl⟩

/-! ### C9 -/

/-- C9 (evaluation at the failing input): a router built with
`insensitive = true` over the literal route `notes` does not match `/NOTES`
(only `/notes`), because `compile` never forwards the flag to
`compileRegExp`; the matcher itself honors the flag when it is applied, as
the third conjunct shows. -/
theorem c9_insensitive_flag_dropped :
    upperRouter.parse "/NOTES" = none ∧
    upperRouter.parse "/notes" =
      some { destination := "notes", parameters := [], path := none } ∧
    (reExec (compileRegExp "/notes" true).re "/NOTES".toList).isSome = true := by
  refine ⟨rfl, rfl, rfl⟩

/-! ### C10 -/

/-- C10: an optional singular variable whose segment is absent still binds
its key in `parameters`: to the empty string for a string kind, and to
`parseInt("", 10)` — `NaN`, not a valid integer — for the integer kind. -/
theorem c10_optional_binds_key :
    optRouter.parse "/notes" =
      some { destination := "notes", parameters := [("noteId", .scalar (.str ""))],
             path := none } ∧
    optRouter.parse "/n" =
      some { destination := "num", parameters := [("id", .scalar .nan)], path := none } := by
  refine ⟨rfl, rfl⟩

/-! ### C1, counterexample -/

/-- C1 is false as stated: for the route `:x.:y` → `xy` and the assignment
`x = "a"`, `y = "b.c"` (no value contains `&` or `/`, so the claim's
exclusions do not apply), stringify yields `/a.b.c`, but greedy matching
re-splits it at the last dot, so parse returns `x = "a.b"`, `y = "c"` — not
the original parameters. -/
theorem c1_round_trip_counterexample :
    dotRouter.stringify
      { destination := "xy",
        parameters := some [("x", .scalar (.str "a")), ("y", .scalar (.str "b.c"))],
        remainingPath := none } = .ok (some "/a.b.c") ∧
    dotRouter.parse "/a.b.c" =
      some { destination := "xy",
             parameters := [("x", .scalar (.str "a.b")), ("y", .scalar (.str "c"))],
             path := none } ∧
    dotRouter.parse "/a.b.c" ≠
      some { destination := "xy",
             parameters := [("x", .scalar (.str "a")), ("y", .scalar (.str "b.c"))],
             path := none } := by
  refine ⟨rfl, rfl, by decide⟩

/-! ### C2, counterexample -/

/-- C2's "fails exactly when no route is registered" is false as stated: the
destination `photos` is registered, yet `stringify` raises a host
`TypeError` when the plural parameter `photoIds` holds a present non-array
value, because the generation loop calls `.map` on it. -/
theorem c2_stringify_error_counterexample :
    photosRouter.stringify
      { destination := "photos", parameters := some [("photoIds", .scalar (.num 5))],
        remainingPath := none } = .error "TypeError: .map is not a function" ∧
    "photos" ∈ [("photos/+photoIds&", "photos")].map Prod.snd := by
  refine ⟨rfl, by decide⟩

/-! ### Helper lemmas: lookups through `objUpd` and the constructor fold -/

theorem lookup_cons_pair {α : Type} (k a1 : String) (a2 : α) (t : List (String × α)) :
    List.lookup k ((a1, a2) :: t) = if k == a1 then some a2 else List.lookup k t := by
  rw [List.lookup_cons]
  cases h : k == a1 <;> simp [h]

theorem lookup_map_objUpd_ne {α : Type} (t : List (String × α)) (k k' : String) (w : α)
    (h : ¬k' = k) :
    (t.map (fun p => if p.1 == k then (k, w) else p)).lookup k' = t.lookup k' := by
  induction t with
  | nil => rfl
  | cons a t ih =>
    obtain ⟨a1, a2⟩ := a
    rw [List.map_cons]
    by_cases ha : a1 = k
    · rw [show (if ((a1, a2) : String × α).1 == k then (k, w) else (a1, a2)) = (k, w) from by
        simp [ha]]
      rw [lookup_cons_pair, lookup_cons_pair]
      rw [if_neg (by simp [h]), if_neg (by simp [ha, h])]
      exact ih
    · rw [show (if ((a1, a2) : String × α).1 == k then (k, w) else (a1, a2)) = (a1, a2) from by
        simp [ha]]
      rw [lookup_cons_pair, lookup_cons_pair]
      by_cases hk : k' = a1
      · rw [if_pos (by simp [hk]), if_pos (by simp [hk])]
      · rw [if_neg (by simp [hk]), if_neg (by simp [hk])]
        exact ih

theorem lookup_map_objUpd_eq {α : Type} (t : List (String × α)) (k : String) (w : α) (v : α)
    (h : t.lookup k = some v) :
    (t.map (fun p => if p.1 == k then (k, w) else p)).lookup k = some w := by
  induction t with
  | nil => simp [List.lookup] at h
  | cons a t ih =>
    obtain ⟨a1, a2⟩ := a
    rw [List.map_cons]
    by_cases ha : a1 = k
    · rw [show (if ((a1, a2) : String × α).1 == k then (k, w) else (a1, a2)) = (k, w) from by
        simp [ha]]
      rw [lookup_cons_pair, if_pos (by simp)]
    · rw [show (if ((a1, a2) : String × α).1 == k then (k, w) else (a1, a2)) = (a1, a2) from by
        simp [ha]]
      rw [lookup_cons_pair] at h ⊢
      rw [if_neg (by simp; exact fun e => ha e.symm)] at h ⊢
      exact ih h

theorem lookup_append_single {α : Type} (l : List (String × α)) (k k' : String) (w : α) :
    (l ++ [(k, w)]).lookup k' =
      match l.lookup k' with
      | some v => some v
      | none => if k' = k then some w else none := by
  induction l with
  | nil =>
    rw [List.nil_append, lookup_cons_pair]
    by_cases h : k' = k
    · rw [if_pos (by simp [h]), if_pos h]
      rfl
    · rw [if_neg (by simp [h]), if_neg h]
      rfl
  | cons a l ih =>
    obtain ⟨a1, a2⟩ := a
    rw [List.cons_append, lookup_cons_pair, lookup_cons_pair]
    by_cases hk : k' = a1
    · rw [if_pos (by simp [hk]), if_pos (by simp [hk])]
    · rw [if_neg (by simp [hk]), if_neg (by simp [hk])]
      exact ih

theorem lookup_objUpd {α : Type} (l : List (String × α)) (k k' : String) (f : Option α → α) :
    (objUpd l k f).lookup k' = if k' = k then some (f (l.lookup k)) else l.lookup k' := by
  unfold objUpd
  cases hlk : l.lookup k with
  | none =>
    rw [lookup_append_single]
    by_cases h : k' = k
    · subst h
      rw [hlk]
    · rw [if_neg h]
      cases hlk2 : l.lookup k' <;> simp [h]
  | some v =>
    by_cases h : k' = k
    · subst h
      rw [if_pos rfl, lookup_map_objUpd_eq l k' (f (some v)) v hlk]
    · rw [if_neg h, lookup_map_objUpd_ne l k k' (f (some v)) h]

theorem backTable_routerStep (pfx : String) (ins : Bool) (acc : Router) (e : String × String)
    (d : String) :
    (routerStep pfx ins acc e).backTable.lookup d =
      if d = e.2 then some ((acc.backTable.lookup e.2).getD [] ++ [compile (pfx ++ e.1) e.2 ins])
      else acc.backTable.lookup d := by
  simp only [routerStep]
  exact lookup_objUpd acc.backTable e.2 d _

theorem backTable_foldl_some (pfx : String) (ins : Bool) (rs : List (String × String))
    (acc : Router) (d : String) (cur : List Route) (h : acc.backTable.lookup d = some cur) :
    ((rs.foldl (routerStep pfx ins) acc).backTable).lookup d =
      some (cur ++ (rs.filter (fun e => e.2 == d)).map (fun e => compile (pfx ++ e.1) e.2 ins)) := by
  induction rs generalizing acc cur with
  | nil => simpa using h
  | cons e rs ih =>
    simp only [List.foldl_cons]
    have hstep := backTable_routerStep pfx ins acc e d
    by_cases hd : d = e.2
    · subst hd
      rw [if_pos rfl, h, Option.getD_some] at hstep
      rw [ih _ _ hstep]
      rw [show (e :: rs).filter (fun x => x.2 == e.2) = e :: rs.filter (fun x => x.2 == e.2) from by
        simp [List.filter_cons]]
      simp
    · rw [if_neg hd] at hstep
      rw [ih _ _ (hstep.trans h)]
      rw [show (e :: rs).filter (fun x => x.2 == d) = rs.filter (fun x => x.2 == d) from by
        simp [List.filter_cons, show (e.2 == d) = false from by simpa using fun x => hd x.symm]]

theorem backTable_foldl_none (pfx : String) (ins : Bool) (rs : List (String × String))
    (acc : Router) (d : String) (h : acc.backTable.lookup d = none) :
    ((rs.foldl (routerStep pfx ins) acc).backTable).lookup d =
      if rs.filter (fun e => e.2 == d) = [] then none
      else some ((rs.filter (fun e => e.2 == d)).map (fun e => compile (pfx ++ e.1) e.2 ins)) := by
  induction rs generalizing acc with
  | nil => simpa using h
  | cons e rs ih =>
    simp only [List.foldl_cons]
    have hstep := backTable_routerStep pfx ins acc e d
    by_cases hd : d = e.2
    · subst hd
      rw [if_pos rfl, h, Option.getD_none, List.nil_append] at hstep
      rw [backTable_foldl_some pfx ins rs _ e.2 _ hstep]
      rw [show (e :: rs).filter (fun x => x.2 == e.2) = e :: rs.filter (fun x => x.2 == e.2) from by
        simp [List.filter_cons]]
      simp
    · rw [if_neg hd] at hstep
      rw [ih _ (hstep.trans h)]
      rw [show (e :: rs).filter (fun x => x.2 == d) = rs.filter (fun x => x.2 == d) from by
        simp [List.filter_cons, show (e.2 == d) = false from by simpa using fun x => hd x.symm]]

theorem backTable_mkRouter (pfx : String) (routes : List (String × String)) (ins : Bool)
    (d : String) :
    (mkRouter pfx routes ins).backTable.lookup d =
      if routes.filter (fun e => e.2 == d) = [] then none
      else some ((routes.filter (fun e => e.2 == d)).map (fun e => compile (pfx ++ e.1) e.2 ins)) :=
  backTable_foldl_none pfx ins routes _ d rfl

theorem termsFor_foldl_none (pfx : String) (ins : Bool) (rs : List (String × String))
    (acc : Router) (d : String) (h : acc.termsForDestination.lookup d = none)
    (hd : d ∉ rs.map Prod.snd) :
    ((rs.foldl (routerStep pfx ins) acc).termsForDestination).lookup d = none := by
  induction rs generalizing acc with
  | nil => simpa using h
  | cons e rs ih =>
    simp only [List.foldl_cons]
    have hne : ¬d = e.2 := fun x => hd (by simp [x])
    have hstep : (routerStep pfx ins acc e).termsForDestination.lookup d =
        acc.termsForDestination.lookup d := by
      simp only [routerStep]
      rw [lookup_objUpd acc.termsForDestination e.2 d _, if_neg hne]
    exact ih _ (hstep.trans h) (fun hx => hd (by simp at hx ⊢; exact Or.inr hx))

theorem filter_dest_nil_iff (routes : List (String × String)) (d : String) :
    routes.filter (fun e => e.2 == d) = [] ↔ d ∉ routes.map Prod.snd := by
  rw [List.filter_eq_nil_iff]
  constructor
  · intro h hmem
    obtain ⟨e, he, hsnd⟩ := List.mem_map.mp hmem
    exact h e he (by simpa using hsnd)
  · intro h e he hbeq
    exact h (List.mem_map.mpr ⟨e, he, by simpa using hbeq⟩)

/-! ### Helper lemmas: the generation loop cannot raise on well-typed states -/

theorem renderTerm_ok_of (s : NavState) (t : Term) (h : pluralTermOk s t = true) :
    ∃ out, renderTerm s t = .ok out := by
  cases t with
  | literal v => exact ⟨_, rfl⟩
  | path =>
    cases hp : presentParam s "undefined"
    · exact ⟨_, by simp [renderTerm, hp]; try rfl⟩
    · exact ⟨_, by simp [renderTerm, hp]; try rfl⟩
  | vr v =>
    cases hp : presentParam s v.name with
    | none =>
      cases hb : (v.plural && v.slash)
      · exact ⟨[], by simp [renderTerm, hp, hb]⟩
      · exact ⟨["/"], by simp [renderTerm, hp, hb]⟩
    | some w =>
      by_cases hpl : v.plural = true
      · simp only [pluralTermOk, hpl, if_true, hp] at h
        cases w with
        | arr xs => exact ⟨_, by simp [renderTerm, hp, hpl]; try rfl⟩
        | scalar x => simp at h
        | null => simp at h
      · have hf : v.plural = false := by simpa using hpl
        exact ⟨_, by simp [renderTerm, hp, hf]; try rfl⟩

theorem mapExcept_ok_of {α ε β : Type} (f : α → Except ε β) (ts : List α)
    (h : ∀ t ∈ ts, ∃ out, f t = .ok out) : ∃ outs, mapExcept f ts = .ok outs := by
  induction ts with
  | nil => exact ⟨[], rfl⟩
  | cons a ts ih =>
    obtain ⟨b, hb⟩ := h a (by simp)
    obtain ⟨bs, hbs⟩ := ih (fun t ht => h t (by simp [ht]))
    exact ⟨b :: bs, by simp [mapExcept, hb, hbs]⟩

theorem renderRoute_ok (route : Route) (s : NavState) (h : pluralWellTyped route s = true) :
    ∃ p, renderRoute route s = .ok p := by
  obtain ⟨parts, hp⟩ := mapExcept_ok_of (renderTerm s) route.terms
    (fun t ht => renderTerm_ok_of s t (List.all_eq_true.mp h t ht))
  exact ⟨_, by simp [renderRoute, hp]; try rfl⟩

/-! ### Helper lemmas: the parse loop -/

theorem parseLoop_first (table : List Route) (path : String) (j : Nat) (hj : j < table.length)
    (hsome : (matchRoute (table.get ⟨j, hj⟩) path).isSome = true)
    (hprev : ∀ (i : Nat) (hi : i < j), matchRoute (table.get ⟨i, Nat.lt_trans hi hj⟩) path = none) :
    parseLoop table path = matchRoute (table.get ⟨j, hj⟩) path := by
  induction table generalizing j with
  | nil => exact absurd hj (Nat.not_lt_zero j)
  | cons r rs ih =>
    cases j with
    | zero =>
      obtain ⟨m, hm⟩ := Option.isSome_iff_exists.mp hsome
      have hm2 : matchRoute r path = some m := hm
      show parseLoop (r :: rs) path = matchRoute r path
      simp [parseLoop, hm2]
    | succ j2 =>
      have h0 : matchRoute r path = none := hprev 0 (Nat.succ_pos j2)
      show parseLoop (r :: rs) path = matchRoute (rs.get ⟨j2, Nat.lt_of_succ_lt_succ hj⟩) path
      simp only [parseLoop, h0]
      exact ih j2 (Nat.lt_of_succ_lt_succ hj) hsome
        (fun i hi => hprev (i + 1) (Nat.succ_lt_succ hi))

theorem parseLoop_none (table : List Route) (path : String)
    (h : ∀ (j : Nat) (hj : j < table.length), matchRoute (table.get ⟨j, hj⟩) path = none) :
    parseLoop table path = none := by
  induction table with
  | nil => rfl
  | cons r rs ih =>
    have h0 : matchRoute r path = none := h 0 (Nat.succ_pos _)
    simp only [parseLoop, h0]
    exact ih (fun j hj => h (j + 1) (Nat.succ_lt_succ hj))

/-! ### C4 -/

/-- C4: `parse` tries the compiled routes in registration order and returns
the result of the first route whose matcher succeeds — in particular, when an
earlier route also matches, the later ones are never consulted — and when no
route matches it returns an absent value (`undefined`) rather than raising. -/
theorem c4_parse_first_match (r : Router) (path : String) :
    (∀ (j : Nat) (hj : j < r.table.length),
      (matchRoute (r.table.get ⟨j, hj⟩) path).isSome = true →
      (∀ (i : Nat) (hi : i < j), matchRoute (r.table.get ⟨i, Nat.lt_trans hi hj⟩) path = none) →
      r.parse path = matchRoute (r.table.get ⟨j, hj⟩) path) ∧
    ((∀ (j : Nat) (hj : j < r.table.length), matchRoute (r.table.get ⟨j, hj⟩) path = none) →
      r.parse path = none) :=
  ⟨fun j hj hsome hprev => parseLoop_first r.table path j hj hsome hprev,
   fun h => parseLoop_none r.table path h⟩

/-- C4 witness: in a table where the variable route `:x` → `any` precedes the
literal route `b` → `b`, both match `/b`, and `parse` returns the
first-registered route's destination `any`. -/
theorem c4_parse_first_match_witness :
    overlapRouter.parse "/b" =
      some { destination := "any", parameters := [("x", .scalar (.str "b"))], path := none } ∧
    (matchRoute (overlapRouter.table.get ⟨1, by decide⟩) "/b").isSome = true := by
  constructor
  · have h := (c4_parse_first_match overlapRouter "/b").1 0 (by decide) rfl
      (fun i hi => absurd hi (Nat.not_lt_zero i))
    exact h.trans rfl
  · rfl

/-! ### C3 -/

/-- C3: for a destination with at least one registered route, `stringify`
generates the path using exactly the most recently registered route for that
destination — the reverse scan of `backTable[destination]` returns
unconditionally on its first iteration — for every state, whatever parameters
are present. -/
theorem c3_stringify_last_registered (pfx : String) (routes : List (String × String)) (ins : Bool)
    (s : NavState) (h : routes.filter (fun e => e.2 == s.destination) ≠ []) :
    (mkRouter pfx routes ins).stringify s =
      (renderRoute (compile
        (pfx ++ ((routes.filter (fun e => e.2 == s.destination)).getLast h).1)
        ((routes.filter (fun e => e.2 == s.destination)).getLast h).2 ins) s).map some := by
  have hb := backTable_mkRouter pfx routes ins s.destination
  rw [if_neg h] at hb
  simp only [Router.stringify, hb, List.getLast?_map, List.getLast?_eq_getLast _ h]
  rfl

/-- C3 witness: with `old/:id` and `new/:id` both registered for `thing`,
stringify uses the most recently registered route `new/:id`. -/
theorem c3_stringify_last_registered_witness :
    thingRouter.stringify
      { destination := "thing", parameters := some [("id", .scalar (.str "5"))],
        remainingPath := none } = .ok (some "/new/5") := by
  have h : ([("old/:id", "thing"), ("new/:id", "thing")].filter
      (fun e => e.2 == "thing")) ≠ [] := by decide
  exact (c3_stringify_last_registered "/" [("old/:id", "thing"), ("new/:id", "thing")] false
    { destination := "thing", parameters := some [("id", .scalar (.str "5"))],
      remainingPath := none } h).trans rfl

/-! ### C2, amended -/

/-- C2 amended: a direct `stringify` raises `UnknownDestination` exactly on
an unregistered destination provided plural parameters of the selected route
hold arrays: (1) on an unregistered destination it raises, while the
`observePath` recomputation emits an absent path instead of raising;
(2) a registered destination always selects a generating route; (3) whenever
a route is selected and its plural terms are well typed, `stringify` returns
a path and does not raise. -/
theorem c2_stringify_error_amended (pfx : String) (routes : List (String × String)) (ins : Bool)
    (s : NavState) :
    (s.destination ∉ routes.map Prod.snd →
      (mkRouter pfx routes ins).stringify s =
        .error ("No routes for the destination: " ++ jsonStringify s.destination) ∧
      (mkRouter pfx routes ins).observeEmit s = .ok none) ∧
    (s.destination ∈ routes.map Prod.snd →
      ∃ route, ((mkRouter pfx routes ins).backTable.lookup s.destination).bind List.getLast? =
        some route) ∧
    (∀ route : Route,
      ((mkRouter pfx routes ins).backTable.lookup s.destination).bind List.getLast? = some route →
      pluralWellTyped route s = true →
      ∃ p, (mkRouter pfx routes ins).stringify s = .ok (some p)) := by
  refine ⟨?_, ?_, ?_⟩
  · intro hmem
    have hnil : routes.filter (fun e => e.2 == s.destination) = [] :=
      (filter_dest_nil_iff routes s.destination).mpr hmem
    have hb := backTable_mkRouter pfx routes ins s.destination
    rw [if_pos hnil] at hb
    constructor
    · simp [Router.stringify, hb]
    · have ht : (mkRouter pfx routes ins).termsForDestination.lookup s.destination = none := by
        unfold mkRouter
        exact termsFor_foldl_none pfx ins routes
          { table := [], backTable := [], termsForDestination := [] } s.destination rfl hmem
      simp [Router.observeEmit, ht]
  · intro hmem
    have hnil : routes.filter (fun e => e.2 == s.destination) ≠ [] :=
      fun x => (filter_dest_nil_iff routes s.destination).mp x hmem
    have hb := backTable_mkRouter pfx routes ins s.destination
    rw [if_neg hnil] at hb
    refine ⟨compile
      (pfx ++ ((routes.filter (fun e => e.2 == s.destination)).getLast hnil).1)
      ((routes.filter (fun e => e.2 == s.destination)).getLast hnil).2 ins, ?_⟩
    rw [hb]
    show ((routes.filter (fun e => e.2 == s.destination)).map
      (fun e => compile (pfx ++ e.1) e.2 ins)).getLast? = some _
    rw [List.getLast?_map, List.getLast?_eq_getLast _ hnil]
    rfl
  · intro route hsel hwt
    cases hlk : (mkRouter pfx routes ins).backTable.lookup s.destination with
    | none => rw [hlk] at hsel; simp at hsel
    | some rs =>
      rw [hlk] at hsel
      have hsel2 : rs.getLast? = some route := hsel
      obtain ⟨p, hp⟩ := renderRoute_ok route s hwt
      exact ⟨p, by simp [Router.stringify, hlk, hsel2, hp, Except.map]⟩

/-- C2 witness: for the plural route table, the unregistered destination
`nowhere` raises in `stringify` but emits an absent path on the observation
step; the registered destination `photos` with an (empty) array parameter
stringifies without raising. -/
theorem c2_stringify_error_amended_witness :
    photosRouter.stringify
        { destination := "nowhere", parameters := some [], remainingPath := none } =
      .error ("No routes for the destination: " ++ jsonStringify "nowhere") ∧
    photosRouter.observeEmit
        { destination := "nowhere", parameters := some [], remainingPath := none } =
      .ok none ∧
    ∃ p, photosRouter.stringify
        { destination := "photos", parameters := some [("photoIds", Value.arr [])],
          remainingPath := none } =
      .ok (some p) := by
  refine ⟨?_, ?_, ?_⟩
  · exact ((c2_stringify_error_amended "/" [("photos/+photoIds&", "photos")] false
      { destination := "nowhere", parameters := some [], remainingPath := none }).1
      (by decide)).1
  · exact ((c2_stringify_error_amended "/" [("photos/+photoIds&", "photos")] false
      { destination := "nowhere", parameters := some [], remainingPath := none }).1
      (by decide)).2
  · exact (c2_stringify_error_amended "/" [("photos/+photoIds&", "photos")] false
      { destination := "photos", parameters := some [("photoIds", Value.arr [])],
        remainingPath := none }).2.2
      (compile "/photos/+photoIds&" "photos" false) rfl rfl

/-! ### Helper lemmas: decimal digit round-trip -/

theorem isDigit_toNat (c : Char) (h : c.isDigit = true) : 48 ≤ c.toNat ∧ c.toNat ≤ 57 := by
  simp only [Char.isDigit, Bool.and_eq_true, decide_eq_true_eq] at h
  exact h

theorem natDigit_isDigit (d : Nat) : (natDigit d).isDigit = true := by
  have h10 : d % 10 < 10 := Nat.mod_lt d (by omega)
  unfold natDigit
  generalize hgen : d % 10 = k at h10 ⊢
  interval_cases k <;> decide

theorem natDigit_toNat (d : Nat) : (natDigit d).toNat = 48 + d % 10 := by
  have h10 : d % 10 < 10 := Nat.mod_lt d (by omega)
  unfold natDigit
  generalize hgen : d % 10 = k at h10 ⊢
  interval_cases k <;> decide

theorem natDigitsRevFuel_zero (f : Nat) : natDigitsRevFuel f 0 = [] := by
  cases f <;> rfl

theorem natDigitsRevFuel_extra (n : Nat) : ∀ (f1 f2 : Nat), n ≤ f1 → n ≤ f2 →
    natDigitsRevFuel f1 n = natDigitsRevFuel f2 n := by
  induction n using Nat.strong_induction_on with
  | _ n ih =>
    intro f1 f2 h1 h2
    cases n with
    | zero => rw [natDigitsRevFuel_zero, natDigitsRevFuel_zero]
    | succ k =>
      cases f1 with
      | zero => omega
      | succ g1 =>
        cases f2 with
        | zero => omega
        | succ g2 =>
          show natDigit ((k + 1) % 10) :: natDigitsRevFuel g1 ((k + 1) / 10) =
            natDigit ((k + 1) % 10) :: natDigitsRevFuel g2 ((k + 1) / 10)
          congr 1
          exact ih ((k + 1) / 10) (Nat.div_lt_self (Nat.succ_pos k) (by omega))
            g1 g2 (by omega) (by omega)

theorem natDigitsRev_succ (n : Nat) :
    natDigitsRev (n + 1) = natDigit ((n + 1) % 10) :: natDigitsRev ((n + 1) / 10) := by
  show natDigit ((n + 1) % 10) :: natDigitsRevFuel n ((n + 1) / 10) =
    natDigit ((n + 1) % 10) :: natDigitsRevFuel ((n + 1) / 10) ((n + 1) / 10)
  congr 1
  exact natDigitsRevFuel_extra ((n + 1) / 10) n ((n + 1) / 10) (by omega) (by omega)

theorem natDigitsRev_all_digits (n : Nat) : ∀ c ∈ natDigitsRev n, c.isDigit = true := by
  induction n using Nat.strong_induction_on with
  | _ n ih =>
    cases n with
    | zero => simp [natDigitsRev, natDigitsRevFuel]
    | succ k =>
      rw [natDigitsRev_succ]
      intro c hc
      rcases List.mem_cons.mp hc with rfl | hc
      · exact natDigit_isDigit _
      · exact ih ((k + 1) / 10) (Nat.div_lt_self (Nat.succ_pos k) (by omega)) c hc

theorem foldl_digits_rev (n : Nat) : ∀ a : Nat,
    ((natDigitsRev n).reverse).foldl (fun a c => a * 10 + (c.toNat - 48)) a =
      a * 10 ^ (natDigitsRev n).length + n := by
  induction n using Nat.strong_induction_on with
  | _ n ih =>
    intro a
    cases n with
    | zero => simp [natDigitsRev, natDigitsRevFuel]
    | succ k =>
      rw [natDigitsRev_succ, List.reverse_cons, List.foldl_append,
        ih ((k + 1) / 10) (Nat.div_lt_self (Nat.succ_pos k) (by omega)) a]
      simp only [List.foldl_cons, List.foldl_nil, natDigit_toNat, List.length_cons]
      rw [pow_succ, ← Nat.mul_assoc]
      generalize a * 10 ^ (natDigitsRev ((k + 1) / 10)).length = A
      omega

theorem digitsVal_natReprL (n : Nat) : digitsVal (natReprL n) = n := by
  unfold natReprL
  by_cases h : n = 0
  · subst h
    decide
  · rw [if_neg h]
    unfold digitsVal
    rw [foldl_digits_rev n 0]
    simp

theorem natReprL_ne_nil (n : Nat) : natReprL n ≠ [] := by
  cases n with
  | zero => simp [natReprL]
  | succ k =>
    rw [natReprL, if_neg (Nat.succ_ne_zero k), natDigitsRev_succ]
    simp

theorem natReprL_all_digits (n : Nat) : ∀ c ∈ natReprL n, c.isDigit = true := by
  unfold natReprL
  by_cases h : n = 0
  · subst h
    intro c hc
    rw [if_pos rfl] at hc
    rcases List.mem_singleton.mp hc with rfl
    decide
  · rw [if_neg h]
    intro c hc
    exact natDigitsRev_all_digits n c (List.mem_reverse.mp hc)

theorem isDigit_false_of_toNat (c : Char) (h : ¬(48 ≤ c.toNat ∧ c.toNat ≤ 57)) :
    c.isDigit = false := by
  cases hd : c.isDigit
  · rfl
  · exact absurd (isDigit_toNat c hd) h

theorem ws_not_digit (c : Char) (h : jsWhitespace c = true) : c.isDigit = false := by
  simp only [jsWhitespace, Bool.or_eq_true, beq_iff_eq] at h
  rcases h with ((((((h | h) | h) | h) | h) | h) | h) | h <;>
    first
      | (subst h; decide)
      | exact isDigit_false_of_toNat c (by omega)

theorem digit_not_ws (c : Char) (h : c.isDigit = true) : jsWhitespace c = false := by
  cases hws : jsWhitespace c
  · rfl
  · rw [ws_not_digit c hws] at h
    cases h

theorem parseIntL_digits (c : Char) (cs : List Char) (hc : c.isDigit = true)
    (hall : ∀ x ∈ cs, Char.isDigit x = true) :
    parseIntL (c :: cs) = .num (digitsVal (c :: cs)) := by
  have hsign : (match c :: cs with
      | '-' :: r => (true, r)
      | '+' :: r => (false, r)
      | x => (false, c :: cs)) = (false, c :: cs) := by
    split
    next r heq =>
      injection heq with h1 h2
      rw [h1] at hc
      cases hc
    next r heq =>
      injection heq with h1 h2
      rw [h1] at hc
      cases hc
    next => rfl
  unfold parseIntL
  simp only [List.dropWhile_cons, digit_not_ws c hc, Bool.false_eq_true, if_false]
  rw [hsign]
  rw [List.takeWhile_eq_self_iff.mpr (by
    intro x hx
    rcases List.mem_cons.mp hx with rfl | hx
    · exact hc
    · exact hall x hx)]
  simp

theorem parseIntL_natReprL (n : Nat) : parseIntL (natReprL n) = .num n := by
  obtain ⟨c, cs, hrepr⟩ : ∃ c cs, natReprL n = c :: cs := by
    cases h : natReprL n with
    | nil => exact absurd h (natReprL_ne_nil n)
    | cons c cs => exact ⟨c, cs, rfl⟩
  rw [hrepr, parseIntL_digits c cs
    (natReprL_all_digits n c (by rw [hrepr]; simp))
    (fun x hx => natReprL_all_digits n x (by rw [hrepr]; simp [hx]))]
  rw [← hrepr, digitsVal_natReprL]

/-! ### Helper lemmas: the backtracking matcher on digit runs and literals -/

theorem mtchStar_succ (step : List Char → Caps → (List Char → Caps → Option Caps) → Option Caps)
    (f : Nat) (s : List Char) (caps : Caps) (k : List Char → Caps → Option Caps) :
    mtchStar step (f + 1) s caps k =
      match step s caps (fun s1 caps1 =>
          if s1.length < s.length then mtchStar step f s1 caps1 k else none) with
      | some r => some r
      | none => k s caps := rfl

theorem mtchStar_pred_all (p : Char → Bool) (a rest : List Char) (fuel : Nat) (caps : Caps)
    (k : List Char → Caps → Option Caps) (r : Caps)
    (ha : ∀ c ∈ a, p c = true)
    (hrest : ∀ c ∈ rest.head?, p c = false)
    (hfuel : a.length ≤ fuel)
    (hk : k rest caps = some r) :
    mtchStar (mtch (.ch p)) fuel (a ++ rest) caps k = some r := by
  induction a generalizing fuel with
  | nil =>
    cases fuel with
    | zero => simpa [mtchStar] using hk
    | succ f =>
      rw [List.nil_append, mtchStar_succ]
      cases rest with
      | nil => simpa [mtch] using hk
      | cons c t =>
        have hc : p c = false := hrest c (by simp)
        simp only [mtch, hc, Bool.false_eq_true, if_false]
        exact hk
  | cons c a2 ih =>
    cases fuel with
    | zero => exact absurd hfuel (by simp)
    | succ f =>
      have hc : p c = true := ha c (by simp)
      rw [List.cons_append, mtchStar_succ]
      have hstep : mtch (.ch p) (c :: (a2 ++ rest)) caps (fun s1 caps1 =>
          if s1.length < (c :: (a2 ++ rest)).length then mtchStar (mtch (.ch p)) f s1 caps1 k
          else none) = some r := by
        simp only [mtch, hc, if_true]
        rw [if_pos (by simp)]
        exact ih f (fun x hx => ha x (by simp [hx])) (Nat.le_of_succ_le_succ hfuel)
      rw [hstep]

theorem mtch_litSeq (cs : List Char) (s : List Char) (caps : Caps)
    (k : List Char → Caps → Option Caps) :
    mtch (litSeqRE false cs) (cs ++ s) caps k = k s caps := by
  induction cs generalizing caps with
  | nil => rfl
  | cons c cs ih =>
    simp only [litSeqRE, List.foldr_cons, List.cons_append, mtch, litChRE]
    simp only [Bool.false_eq_true, if_false, beq_self_eq_true, if_true]
    exact ih caps

theorem mtch_lit_frag (cs : List Char) (s : List Char) (caps : Caps)
    (k : List Char → Caps → Option Caps) (r : Caps) (hk : k s caps = some r) :
    mtch (.cat (litChRE false '/') (litSeqRE false cs)) ('/' :: (cs ++ s)) caps k = some r := by
  simp only [mtch, litChRE, Bool.false_eq_true, if_false, beq_self_eq_true, if_true]
  rw [mtch_litSeq cs s caps k, hk]

theorem mtch_grp_plus (p : Char → Bool) (i : Nat) (a rest : List Char) (caps : Caps)
    (k : List Char → Caps → Option Caps) (r : Caps)
    (ha : a ≠ []) (hall : ∀ c ∈ a, p c = true) (hrest : ∀ c ∈ rest.head?, p c = false)
    (hk : k rest ((i, a) :: caps) = some r) :
    mtch (.grp i (.cat (.ch p) (.star (.ch p)))) (a ++ rest) caps k = some r := by
  obtain ⟨c, a2, rfl⟩ : ∃ c a2, a = c :: a2 := by
    cases a with
    | nil => exact absurd rfl ha
    | cons c a2 => exact ⟨c, a2, rfl⟩
  have hc : p c = true := hall c (by simp)
  simp only [mtch, List.cons_append, hc, if_true]
  refine mtchStar_pred_all p a2 rest _ _ _ r (fun x hx => hall x (by simp [hx])) hrest
    (by simp [List.length_append]; omega) ?_
  show k rest ((i, (c :: (a2 ++ rest)).take ((c :: (a2 ++ rest)).length - rest.length)) :: caps) =
    some r
  have htake : (c :: (a2 ++ rest)).take ((c :: (a2 ++ rest)).length - rest.length) = c :: a2 := by
    have h1 : (c :: (a2 ++ rest)).length - rest.length = a2.length + 1 := by
      simp only [List.length_cons, List.length_append]
      omega
    rw [h1, List.take_succ_cons, List.take_left]
  rw [htake]
  exact hk

theorem mtch_int_frag (i : Nat) (a rest : List Char) (caps : Caps)
    (k : List Char → Caps → Option Caps) (r : Caps)
    (ha : a ≠ []) (hall : ∀ c ∈ a, Char.isDigit c = true)
    (hrest : ∀ c ∈ rest.head?, Char.isDigit c = false)
    (hk : k rest ((i, a) :: caps) = some r) :
    mtch (.cat (litChRE false '/') (.grp i plusDigitRE)) ('/' :: (a ++ rest)) caps k = some r := by
  simp only [mtch, litChRE, Bool.false_eq_true, if_false, beq_self_eq_true, if_true]
  exact mtch_grp_plus Char.isDigit i a rest caps k r ha hall hrest hk

theorem mtch_int_frag_end (i : Nat) (a : List Char) (caps : Caps)
    (k : List Char → Caps → Option Caps) (r : Caps)
    (ha : a ≠ []) (hall : ∀ c ∈ a, Char.isDigit c = true)
    (hk : k [] ((i, a) :: caps) = some r) :
    mtch (.cat (litChRE false '/') (.grp i plusDigitRE)) ('/' :: a) caps k = some r := by
  have h := mtch_int_frag i a [] caps k r ha hall (by simp) hk
  rwa [List.append_nil] at h

/-! ### The compiled integer-pair route, written out -/

/-- The compiled route for `photo/+photoId/comments/+commentId` under
prefix `/`. -/
def routePC : Route := compile "/photo/+photoId/comments/+commentId" "photo-comment" false

/-- The regexp `compileRegExp` produces for that pattern:
`^/photo/(\d+)/comments/(\d+)$`. -/
def pcRE : RE :=
  .cat (.cat (.cat (.cat .eps
    (.cat (litChRE false '/') (litSeqRE false "photo".toList)))
    (.cat (litChRE false '/') (.grp 0 plusDigitRE)))
    (.cat (litChRE false '/') (litSeqRE false "comments".toList)))
    (.cat (litChRE false '/') (.grp 1 plusDigitRE))

theorem routePC_re : routePC.re = pcRE := rfl

theorem headSlash_not_digit (t : List Char) :
    ∀ c ∈ (('/' : Char) :: t).head?, Char.isDigit c = false := by
  intro c hc
  simp only [List.head?_cons, Option.mem_def, Option.some.injEq] at hc
  subst hc
  decide

theorem mtch_cat_eq (a b : RE) (s : List Char) (caps : Caps)
    (k : List Char → Caps → Option Caps) :
    mtch (.cat a b) s caps k = mtch a s caps (fun s1 caps1 => mtch b s1 caps1 k) := rfl

theorem mtch_eps_eq (s : List Char) (caps : Caps) (k : List Char → Caps → Option Caps) :
    mtch RE.eps s caps k = k s caps := rfl

theorem reExec_pcRE (dn dm : List Char)
    (h1 : dn ≠ []) (h2 : ∀ c ∈ dn, Char.isDigit c = true)
    (h3 : dm ≠ []) (h4 : ∀ c ∈ dm, Char.isDigit c = true) :
    reExec pcRE
      ('/' :: ("photo".toList ++ ('/' :: (dn ++ ('/' :: ("comments".toList ++ ('/' :: dm))))))) =
      some [(1, dm), (0, dn)] := by
  unfold reExec pcRE
  rw [mtch_cat_eq, mtch_cat_eq, mtch_cat_eq, mtch_cat_eq, mtch_eps_eq]
  refine mtch_lit_frag "photo".toList _ [] _ _ ?_
  refine mtch_int_frag 0 dn _ _ _ _ h1 h2 (headSlash_not_digit _) ?_
  refine mtch_lit_frag "comments".toList _ _ _ _ ?_
  exact mtch_int_frag_end 1 dm _ _ _ h3 h4 rfl

theorem intRepr_natCast (n : Nat) : intRepr (n : Int) = natRepr n := by
  unfold intRepr
  rw [if_neg (by omega), Int.toNat_natCast]

/-! ### C1, amended -/

/-- C1 amended (see the counterexample for why the claim as stated fails):
for a route whose variables are Integer-kind separated by non-digit literals —
here `photo/+photoId/comments/+commentId` → `photo-comment` under prefix `/`
— stringify followed by parse is the identity for whole-number parameters
below `2 ^ 53`: stringify emits `/photo/<n>/comments/<m>` and parse recovers
the destination, both integer parameters, and an absent remainder.  The
bounds restrict the statement to the range where a JS number holds the
integer exactly and renders it as exact decimal digits (above `2 ^ 53`
doubles round, and from `1e21` on rendering turns exponential, which `\d+`
does not even match), the range on which `natRepr` models the host. -/
theorem c1_round_trip_int_routes (n m : Nat) (hn : n < 2 ^ 53) (hm : m < 2 ^ 53) :
    pcRouter.stringify
      { destination := "photo-comment",
        parameters := some [("photoId", .scalar (.num n)), ("commentId", .scalar (.num m))],
        remainingPath := none } =
      .ok (some ("/photo/" ++ natRepr n ++ "/comments/" ++ natRepr m)) ∧
    pcRouter.parse ("/photo/" ++ natRepr n ++ "/comments/" ++ natRepr m) =
      some { destination := "photo-comment",
             parameters := [("photoId", .scalar (.num n)), ("commentId", .scalar (.num m))],
             path := none } := by
  have hchars : ("/photo/" ++ natRepr n ++ "/comments/" ++ natRepr m).data =
      '/' :: ("photo".toList ++ ('/' :: (natReprL n ++
        ('/' :: ("comments".toList ++ ('/' :: natReprL m)))))) := by
    simp only [String.data_append]
    rw [show (natRepr n).data = natReprL n from rfl,
      show (natRepr m).data = natReprL m from rfl,
      show "photo".toList = ['p', 'h', 'o', 't', 'o'] from rfl,
      show "comments".toList = ['c', 'o', 'm', 'm', 'e', 'n', 't', 's'] from rfl]
    simp [List.append_assoc]
  constructor
  · have hstr : pcRouter.stringify
        { destination := "photo-comment",
          parameters := some [("photoId", .scalar (.num n)), ("commentId", .scalar (.num m))],
          remainingPath := none } =
        .ok (some ((((((("" ++ "/photo") ++ "/") ++ intRepr (n : Int)) ++ "/comments") ++ "/") ++
          intRepr (m : Int)) ++ "")) := rfl
    rw [hstr, intRepr_natCast n, intRepr_natCast m]
    refine congrArg Except.ok (congrArg some (String.ext ?_))
    simp only [String.data_append]
    simp [List.append_assoc]
  · have hexec : reExec routePC.re ("/photo/" ++ natRepr n ++ "/comments/" ++ natRepr m).toList =
        some [(1, natReprL m), (0, natReprL n)] := by
      rw [routePC_re, show ("/photo/" ++ natRepr n ++ "/comments/" ++ natRepr m).toList =
        ("/photo/" ++ natRepr n ++ "/comments/" ++ natRepr m).data from rfl, hchars]
      exact reExec_pcRE (natReprL n) (natReprL m) (natReprL_ne_nil n) (natReprL_all_digits n)
        (natReprL_ne_nil m) (natReprL_all_digits m)
    have hmatch : matchRoute routePC ("/photo/" ++ natRepr n ++ "/comments/" ++ natRepr m) =
        some { destination := "photo-comment",
               parameters := [("photoId", .scalar (parseIntL (natReprL n))),
                              ("commentId", .scalar (parseIntL (natReprL m)))],
               path := none } := by
      unfold matchRoute
      rw [hexec]
      rfl
    have htab : pcRouter.table = [routePC] := rfl
    show parseLoop pcRouter.table ("/photo/" ++ natRepr n ++ "/comments/" ++ natRepr m) = _
    rw [htab]
    simp only [parseLoop]
    rw [hmatch, parseIntL_natReprL n, parseIntL_natReprL m]

/-- C1 amended witness: at the in-range parameters `photoId = 11`,
`commentId = 0` (the pair exercised by the repository's own test), the round
trip goes through the concrete path `/photo/11/comments/0`. -/
theorem c1_round_trip_int_routes_witness :
    (11 : Nat) < 2 ^ 53 ∧ (0 : Nat) < 2 ^ 53 ∧
    pcRouter.stringify
      { destination := "photo-comment",
        parameters := some [("photoId", .scalar (.num 11)), ("commentId", .scalar (.num 0))],
        remainingPath := none } = .ok (some "/photo/11/comments/0") ∧
    pcRouter.parse "/photo/11/comments/0" =
      some { destination := "photo-comment",
             parameters := [("photoId", .scalar (.num 11)), ("commentId", .scalar (.num 0))],
             path := none } := by
  have h := c1_round_trip_int_routes 11 0 (by decide) (by decide)
  have hpath : "/photo/" ++ natRepr 11 ++ "/comments/" ++ natRepr 0 = "/photo/11/comments/0" :=
    rfl
  refine ⟨by decide, by decide, ?_, ?_⟩
  · rw [← hpath]
    exact h.1
  · rw [← hpath]
    exact h.2
